import Mathlib

/-!
Verification of the R^n vector-space core of the RL repository
(`RL/space/euclidean.py`): the aliasing-aware linear-combination engine
`RN.linCombImpl`, the wrapper validation, `NormedRN.normImpl`,
`EuclideanSpace.multiplyImpl` and `RN.__init__`.

Buffers hold double-precision reals.  We embed a double as an exact value:
either a finite rational or one of the IEEE special values `inf`, `-inf`,
`NaN` (finite double arithmetic on the inputs of interest is exact, and the
special values follow the IEEE rules `0 * inf = NaN`, `inf + (-inf) = NaN`,
`NaN` absorbing).  Signed zero is collapsed to `0`, and equality on finite
values is exact: all scalar comparisons made by the source compare against
the literals `0` and `1`, where Python equality agrees with propositional
equality on this embedding (`NaN == 0` is `False` there and here).
-/

/-- A double-precision value: a finite rational or an IEEE special value. -/
inductive FVal where
  | fin (q : ℚ)
  | inf
  | ninf
  | nan
deriving DecidableEq, Repr

/-- IEEE addition on embedded doubles: `NaN` absorbs, `inf + (-inf) = NaN`,
finite addition is exact. -/
def FVal.add : FVal → FVal → FVal
  | .nan, _ => .nan
  | _, .nan => .nan
  | .fin q, .fin r => .fin (q + r)
  | .fin _, .inf => .inf
  | .inf, .fin _ => .inf
  | .fin _, .ninf => .ninf
  | .ninf, .fin _ => .ninf
  | .inf, .inf => .inf
  | .ninf, .ninf => .ninf
  | .inf, .ninf => .nan
  | .ninf, .inf => .nan

/-- IEEE multiplication on embedded doubles: `NaN` absorbs, `0 * ±inf = NaN`,
nonzero finite times `±inf` gives a signed infinity, finite multiplication is
exact. -/
def FVal.mul : FVal → FVal → FVal
  | .nan, _ => .nan
  | _, .nan => .nan
  | .fin q, .fin r => .fin (q * r)
  | .fin q, .inf => if q = 0 then .nan else if 0 < q then .inf else .ninf
  | .inf, .fin q => if q = 0 then .nan else if 0 < q then .inf else .ninf
  | .fin q, .ninf => if q = 0 then .nan else if 0 < q then .ninf else .inf
  | .ninf, .fin q => if q = 0 then .nan else if 0 < q then .ninf else .inf
  | .inf, .inf => .inf
  | .inf, .ninf => .ninf
  | .ninf, .inf => .ninf
  | .ninf, .ninf => .inf

/-- `true` iff the value is finite (not `inf`, `-inf` or `NaN`). -/
def FVal.isFin : FVal → Bool
  | .fin _ => true
  | _ => false

/-- A buffer is the contents of one numpy array: a list of doubles. -/
abbrev Buffer := List FVal

/-- All elements of a buffer are finite. -/
def allFin (xs : Buffer) : Prop := xs.all FVal.isFin = true

instance (xs : Buffer) : Decidable (allFin xs) := by unfold allFin; infer_instance

/-- The store of numpy arrays, keyed by array identity (`id` of `.values`). -/
def Heap := Nat → Buffer

/-- Overwrite the buffer with identity `i`. -/
def writeBuf (h : Heap) (i : Nat) (v : Buffer) : Heap :=
  fun j => if j = i then v else h j

/-- An `RNVector` handle: `hid` is the Python object identity of the Vector
itself (what `x is y` compares), `buf` the identity of its underlying numpy
array `.values`, and `n` the dimension of its owning space.  Two distinct
handles (`hid`s differ) may share one buffer (`buf`s equal). -/
structure RNVector where
  hid : Nat
  buf : Nat
  n : Nat
deriving DecidableEq, Repr

/-- BLAS `scal(a, buf)`: `buf[i] = a * buf[i]` for every `i` (the reference
`dscal` is a plain multiply loop, with no special case for `a = 0`). -/
def scalBuf (a : FVal) (buf : Buffer) : Buffer :=
  buf.map (fun t => FVal.mul a t)

/-- BLAS `axpy(src, dst, n, a)`: `dst[i] = a * src[i] + dst[i]`. -/
def axpyBuf (a : FVal) (src dst : Buffer) : Buffer :=
  List.zipWith (fun s d => FVal.add (FVal.mul a s) d) src dst

/-- `z.values[:] = 0`: every slot of the buffer becomes `0.0`. -/
def zeroBuf (buf : Buffer) : Buffer :=
  buf.map (fun _ => FVal.fin 0)

/-- The element-wise reference result `a*x[i] + b*y[i]`. -/
def refLinComb (a : FVal) (xs : Buffer) (b : FVal) (ys : Buffer) : Buffer :=
  List.zipWith (fun xi yi => FVal.add (FVal.mul a xi) (FVal.mul b yi)) xs ys

/-- The non-recursive tail of `RN.linCombImpl` (its `elif`/`else` chain,
reached when the `x is y and b != 0` branch is not taken): dispatch on the
alignment of `z` with `x` and `y` and on the values of `a` and `b`, issuing
BLAS `scal`/`axpy`/`copy` calls against the heap.  `_copy(src, dst)` is
`dst[:] = src`; each write targets `z`'s buffer. -/
def linCombImplRest (h : Heap) (z : RNVector) (a : FVal) (x : RNVector)
    (b : FVal) (y : RNVector) : Heap :=
  if z.hid = x.hid ∧ z.hid = y.hid then
    -- all the vectors are aligned:                   z = (a+b)*z
    writeBuf h z.buf (scalBuf (FVal.add a b) (h z.buf))
  else if z.hid = x.hid then
    -- z aligned with x:                              z = a*z + b*y
    let h1 := if ¬ a = FVal.fin 1 then
        writeBuf h z.buf (scalBuf a (h z.buf)) else h
    if ¬ b = FVal.fin 0 then
      writeBuf h1 z.buf (axpyBuf b (h1 y.buf) (h1 z.buf)) else h1
  else if z.hid = y.hid then
    -- z aligned with y:                              z = a*x + b*z
    let h1 := if ¬ b = FVal.fin 1 then
        writeBuf h z.buf (scalBuf b (h z.buf)) else h
    if ¬ a = FVal.fin 0 then
      writeBuf h1 z.buf (axpyBuf a (h1 x.buf) (h1 z.buf)) else h1
  else
    if b = FVal.fin 0 then
      if a = FVal.fin 0 then
        -- zero assignment:                           z = 0
        writeBuf h z.buf (zeroBuf (h z.buf))
      else
        --                                            z = a*x
        let h1 := writeBuf h z.buf (h x.buf)
        if ¬ a = FVal.fin 1 then
          writeBuf h1 z.buf (scalBuf a (h1 z.buf)) else h1
    else
      if a = FVal.fin 0 then
        --                                            z = b*y
        let h1 := writeBuf h z.buf (h y.buf)
        if ¬ b = FVal.fin 1 then
          writeBuf h1 z.buf (scalBuf b (h1 z.buf)) else h1
      else if a = FVal.fin 1 then
        --                                            z = x + b*y
        let h1 := writeBuf h z.buf (h x.buf)
        writeBuf h1 z.buf (axpyBuf b (h1 y.buf) (h1 z.buf))
      else
        --                                            z = a*x + b*y
        let h1 := writeBuf h z.buf (h y.buf)
        let h2 := if ¬ b = FVal.fin 1 then
            writeBuf h1 z.buf (scalBuf b (h1 z.buf)) else h1
        writeBuf h2 z.buf (axpyBuf a (h2 x.buf) (h2 z.buf))

/-- `RN.linCombImpl(z, a, x, b, y)`: if `x is y and b != 0`, recurse as
`linCombImpl(z, a+b, x, 0, x)`; otherwise run the `elif` chain
(`linCombImplRest`).  The recursive call passes `b = 0`, so it cannot recurse
again. -/
def linCombImpl (h : Heap) (z : RNVector) (a : FVal) (x : RNVector)
    (b : FVal) (y : RNVector) : Heap :=
  if hc : x.hid = y.hid ∧ ¬ b = FVal.fin 0 then
    linCombImpl h z (FVal.add a b) x (FVal.fin 0) x
  else
    linCombImplRest h z a x b y
termination_by (if b = FVal.fin 0 then 0 else 1)
decreasing_by simp [hc.2]

/-- `RN.linCombImpl` with an explicit bound on the depth of the Python call
stack: one unit of fuel is consumed by each invocation and `none` is returned
if the bound is exhausted before a non-recursive branch is reached. -/
def linCombImplFuel : Nat → Heap → RNVector → FVal → RNVector → FVal →
    RNVector → Option Heap
  | 0, _, _, _, _, _, _ => none
  | fuel + 1, h, z, a, x, b, y =>
    if x.hid = y.hid ∧ ¬ b = FVal.fin 0 then
      linCombImplFuel fuel h z (FVal.add a b) x (FVal.fin 0) x
    else
      some (linCombImplRest h z a x b y)

/-- The error kinds of the space layer named by the spec:
`DimensionMismatch` for operands from different spaces, `InvalidArgument` for
a bad construction argument (the source raises Python `TypeError` for both). -/
inductive SpaceError where
  | dimensionMismatch
  | invalidArgument
deriving DecidableEq, Repr

/-- Modelled from the spec: the `LinearSpace.linComb` wrapper lives in
`RL/space/space.py`, which is not under src/.  Per the spec it "fails with a
DimensionMismatch error if z, x, or y do not share the same owning Space (or
equivalently the same n); this check must occur before any primitive is
invoked", so on mismatch the heap is returned untouched together with the
error, and only on success is `linCombImpl` dispatched. -/
def linComb (h : Heap) (z : RNVector) (a : FVal) (x : RNVector) (b : FVal)
    (y : RNVector) : Heap × Option SpaceError :=
  if z.n = x.n ∧ z.n = y.n then
    (linCombImpl h z a x b y, none)
  else
    (h, some SpaceError.dimensionMismatch)

/-- The order of a p-norm: a float, i.e. `inf`, `-inf`, or a finite value. -/
inductive NormOrd where
  | pinf
  | minf
  | val (p : ℚ)
deriving DecidableEq

/-- `NormedRN.normImpl(vector)` returns `np.linalg.norm(vector.values, ord)`
on a real vector; its behavior, per the table in the `NormedRN` docstring
(matching numpy's documented semantics): `inf` gives the maximum of the
absolute values, `-inf` their minimum, `0` the count of nonzero elements,
and any other finite order `p` gives `(Σ |x_i|^p)^(1/p)`. -/
noncomputable def normImpl (xs : List ℚ) : NormOrd → ℝ
  | .pinf =>
    match xs.map (fun t => |t|) with
    | [] => 0
    | a :: rest => ((rest.foldl max a : ℚ) : ℝ)
  | .minf =>
    match xs.map (fun t => |t|) with
    | [] => 0
    | a :: rest => ((rest.foldl min a : ℚ) : ℝ)
  | .val p =>
    if p = 0 then ((xs.filter (fun t => ¬ t = 0)).length : ℝ)
    else ((xs.map (fun t => ((|t| : ℚ) : ℝ) ^ (p : ℝ))).sum) ^ ((p : ℝ))⁻¹

/-- `EuclideanSpace.multiplyImpl(x, y)`: `y.values[:] = x.values * y.values`.
The numpy product is materialized before the assignment, so both operands are
read from the pre-call heap even when `x` and `y` alias. -/
def multiplyImpl (h : Heap) (x y : RNVector) : Heap :=
  writeBuf h y.buf (List.zipWith FVal.mul (h x.buf) (h y.buf))

/-- An argument passed as the dimension `n` of `RN(n)`: either a Python
integer, or some value that is not an instance of `Integral` (a float, a
string, ...). -/
inductive PyInput where
  | int (n : Int)
  | nonIntegral
deriving DecidableEq, Repr

/-- `RN.__init__(n)`: raises unless `n` is an `Integral` with `n >= 1`
(`if not isinstance(n, Integral) or n < 1: raise TypeError(...)`); on
success the space's dimension is `n`.  The spec names the raised error kind
InvalidArgument. -/
def RN_init : PyInput → Except SpaceError Nat
  | .int n =>
    if n < 1 then Except.error SpaceError.invalidArgument
    else Except.ok n.toNat
  | .nonIntegral => Except.error SpaceError.invalidArgument

/-! Concrete data for witnesses and counterexamples. -/

/-- Witness heap: buffer 1 holds `[1,2,3]`, buffer 2 holds `[4,5,6]`, every
other buffer holds `[0,0,0]`. -/
def hW1 : Heap := fun i =>
  if i = 1 then [FVal.fin 1, FVal.fin 2, FVal.fin 3]
  else if i = 2 then [FVal.fin 4, FVal.fin 5, FVal.fin 6]
  else [FVal.fin 0, FVal.fin 0, FVal.fin 0]

/-- Result handle over buffer 0. -/
def zW1 : RNVector := ⟨0, 0, 3⟩

/-- First summand handle over buffer 1. -/
def xW1 : RNVector := ⟨1, 1, 3⟩

/-- Second summand handle over buffer 2. -/
def yW1 : RNVector := ⟨2, 2, 3⟩

/-- A result handle that shares buffer 1 with `xW1` while being a distinct
Vector object (hid 3 vs hid 1). -/
def zC2 : RNVector := ⟨3, 1, 3⟩

/-- Witness heap for the handle-aliasing cases: buffer 0 holds `[1,2]`,
buffer 1 holds `[10,20]`. -/
def hW2 : Heap := fun i =>
  if i = 0 then [FVal.fin 1, FVal.fin 2]
  else if i = 1 then [FVal.fin 10, FVal.fin 20]
  else []

/-- Handle over buffer 0 of `hW2`. -/
def vW2 : RNVector := ⟨0, 0, 2⟩

/-- Handle over buffer 1 of `hW2`. -/
def wW2 : RNVector := ⟨1, 1, 2⟩

/-- A heap whose every buffer holds the single value `inf`. -/
def hInf : Heap := fun _ => [FVal.inf]

/-- A handle over buffer 0 of `hInf`, in a 1-dimensional space. -/
def vInf : RNVector := ⟨0, 0, 1⟩

/-- A result handle over buffer 2 of `hInf`, distinct from `vInf`. -/
def zC6 : RNVector := ⟨5, 2, 1⟩

/-- A handle that shares buffer 0 of `hInf` with `vInf` while being a
distinct Vector object. -/
def yC6 : RNVector := ⟨1, 0, 1⟩

/-- A handle whose owning space has dimension 2 (for the mismatch witness). -/
def zW3 : RNVector := ⟨0, 0, 2⟩

/-- Witness heap for `multiplyImpl`: buffer 0 holds `[5,3,2]`, buffer 1
holds `[1,2,3]`. -/
def hW4 : Heap := fun i =>
  if i = 0 then [FVal.fin 5, FVal.fin 3, FVal.fin 2]
  else if i = 1 then [FVal.fin 1, FVal.fin 2, FVal.fin 3]
  else []

/-- Handle over buffer 0 of `hW4`. -/
def xW4 : RNVector := ⟨0, 0, 3⟩

/-- Handle over buffer 1 of `hW4`. -/
def yW4 : RNVector := ⟨1, 1, 3⟩

/-! Basic algebra of the embedded doubles. -/

theorem FVal.add_fzero (v : FVal) : FVal.add v (FVal.fin 0) = v := by
  cases v <;> simp [FVal.add]

theorem FVal.fzero_add (v : FVal) : FVal.add (FVal.fin 0) v = v := by
  cases v <;> simp [FVal.add]

theorem FVal.fone_mul (v : FVal) : FVal.mul (FVal.fin 1) v = v := by
  cases v <;> norm_num [FVal.mul]

theorem FVal.addC (a b : FVal) : FVal.add a b = FVal.add b a := by
  cases a <;> cases b <;> simp [FVal.add, Rat.add_comm]

theorem FVal.fin_distrib (qa qb q : ℚ) :
    FVal.mul (FVal.fin (qa + qb)) (FVal.fin q) =
      FVal.add (FVal.mul (FVal.fin qa) (FVal.fin q))
        (FVal.mul (FVal.fin qb) (FVal.fin q)) := by
  simp [FVal.mul, FVal.add, add_mul]

theorem FVal.isFin_iff {v : FVal} : v.isFin = true ↔ ∃ q, v = FVal.fin q := by
  cases v <;> simp [FVal.isFin]

theorem allFin_cons {v : FVal} {xs : Buffer} :
    allFin (v :: xs) ↔ v.isFin = true ∧ allFin xs := by
  simp [allFin]

/-! Buffer-level facts relating the BLAS primitives to the element-wise
reference result. -/

theorem scal_fone (xs : Buffer) : scalBuf (FVal.fin 1) xs = xs := by
  simp [scalBuf, FVal.fone_mul]

theorem zeroBuf_eq_replicate (xs : Buffer) :
    zeroBuf xs = List.replicate xs.length (FVal.fin 0) := by
  simp [zeroBuf, List.map_const']

theorem scal_fzero_allFin :
    ∀ xs : Buffer, allFin xs →
      scalBuf (FVal.fin 0) xs = List.replicate xs.length (FVal.fin 0) := by
  intro xs
  induction xs with
  | nil => intro _; rfl
  | cons v xs ih =>
    intro hf
    obtain ⟨hv, hxs⟩ := allFin_cons.mp hf
    obtain ⟨q, rfl⟩ := FVal.isFin_iff.mp hv
    simp only [scalBuf, List.map_cons, List.length_cons, List.replicate_succ,
      List.cons.injEq]
    exact ⟨by simp [FVal.mul], by simpa [scalBuf] using ih hxs⟩

theorem axpy_scal_eq_ref (a b : FVal) (xs ys : Buffer) :
    axpyBuf a xs (scalBuf b ys) = refLinComb a xs b ys := by
  simp [axpyBuf, scalBuf, refLinComb, List.zipWith_map_right]

theorem axpy_scal_flip (a b : FVal) :
    ∀ zs ys : Buffer, axpyBuf b ys (scalBuf a zs) = refLinComb a zs b ys := by
  intro zs
  induction zs with
  | nil => intro ys; cases ys <;> rfl
  | cons v zs ih =>
    intro ys
    cases ys with
    | nil => rfl
    | cons w ys =>
      simp only [axpyBuf, scalBuf, refLinComb, List.map_cons,
        List.zipWith_cons_cons, List.cons.injEq] at ih ⊢
      exact ⟨FVal.addC _ _, ih ys⟩

theorem axpy_flip_ref (b : FVal) (xs ys : Buffer) :
    axpyBuf b ys xs = refLinComb (FVal.fin 1) xs b ys := by
  rw [← scal_fone xs, axpy_scal_flip, scal_fone]

theorem axpy_fone_ref (a : FVal) (xs ys : Buffer) :
    axpyBuf a xs ys = refLinComb a xs (FVal.fin 1) ys := by
  rw [← scal_fone ys, axpy_scal_eq_ref, scal_fone]

theorem refLinComb_rzero (a : FVal) :
    ∀ xs ys : Buffer, allFin ys → ys.length = xs.length →
      refLinComb a xs (FVal.fin 0) ys = scalBuf a xs := by
  intro xs
  induction xs with
  | nil =>
    intro ys _ hl
    rw [List.length_nil, List.length_eq_zero] at hl
    subst hl; rfl
  | cons v xs ih =>
    intro ys hf hl
    cases ys with
    | nil => simp at hl
    | cons w ys =>
      obtain ⟨hw, hys⟩ := allFin_cons.mp hf
      obtain ⟨qw, rfl⟩ := FVal.isFin_iff.mp hw
      simp only [refLinComb, scalBuf, List.zipWith_cons_cons, List.map_cons,
        List.cons.injEq] at ih ⊢
      refine ⟨?_, ih ys hys (by simpa using hl)⟩
      simp [FVal.mul, FVal.add_fzero]

theorem refLinComb_lzero (b : FVal) :
    ∀ xs ys : Buffer, allFin xs → xs.length = ys.length →
      refLinComb (FVal.fin 0) xs b ys = scalBuf b ys := by
  intro xs
  induction xs with
  | nil =>
    intro ys _ hl
    have hys : ys = [] := List.length_eq_zero.mp (by simpa using hl.symm)
    subst hys; rfl
  | cons v xs ih =>
    intro ys hf hl
    cases ys with
    | nil => simp at hl
    | cons w ys =>
      obtain ⟨hv, hxs⟩ := allFin_cons.mp hf
      obtain ⟨qv, rfl⟩ := FVal.isFin_iff.mp hv
      simp only [refLinComb, scalBuf, List.zipWith_cons_cons, List.map_cons,
        List.cons.injEq] at ih ⊢
      refine ⟨?_, ih ys hxs (by simpa using hl)⟩
      simp [FVal.mul, FVal.fzero_add]

theorem refLinComb_zero_zero :
    ∀ xs ys : Buffer, allFin xs → allFin ys →
      refLinComb (FVal.fin 0) xs (FVal.fin 0) ys =
        List.replicate (min xs.length ys.length) (FVal.fin 0) := by
  intro xs
  induction xs with
  | nil => intro ys _ _; simp [refLinComb]
  | cons v xs ih =>
    intro ys hfx hfy
    cases ys with
    | nil => simp [refLinComb]
    | cons w ys =>
      obtain ⟨hv, hxs⟩ := allFin_cons.mp hfx
      obtain ⟨hw, hys⟩ := allFin_cons.mp hfy
      obtain ⟨qv, rfl⟩ := FVal.isFin_iff.mp hv
      obtain ⟨qw, rfl⟩ := FVal.isFin_iff.mp hw
      simp only [refLinComb, List.zipWith_cons_cons, List.length_cons,
        Nat.succ_min_succ, List.replicate_succ, List.cons.injEq] at ih ⊢
      exact ⟨by simp [FVal.mul, FVal.add], ih ys hxs hys⟩

theorem scal_sum_ref (qa qb : ℚ) :
    ∀ vs : Buffer, allFin vs →
      scalBuf (FVal.fin (qa + qb)) vs =
        refLinComb (FVal.fin qa) vs (FVal.fin qb) vs := by
  intro vs
  induction vs with
  | nil => intro _; rfl
  | cons v vs ih =>
    intro hf
    obtain ⟨hv, hvs⟩ := allFin_cons.mp hf
    obtain ⟨q, rfl⟩ := FVal.isFin_iff.mp hv
    simp only [scalBuf, refLinComb, List.map_cons, List.zipWith_cons_cons,
      List.cons.injEq] at ih ⊢
    exact ⟨FVal.fin_distrib qa qb q, ih hvs⟩

/-! Unfolding and framing of the engine. -/

theorem writeBuf_same (h : Heap) (i : Nat) (v : Buffer) : writeBuf h i v i = v := by
  simp [writeBuf]

theorem writeBuf_other (h : Heap) (i : Nat) (v : Buffer) {j : Nat}
    (hj : ¬ j = i) : writeBuf h i v j = h j := by
  simp [writeBuf, hj]

theorem linCombImpl_eq (h : Heap) (z : RNVector) (a : FVal) (x : RNVector)
    (b : FVal) (y : RNVector) :
    linCombImpl h z a x b y =
      if x.hid = y.hid ∧ ¬ b = FVal.fin 0 then
        linCombImplRest h z (FVal.add a b) x (FVal.fin 0) x
      else
        linCombImplRest h z a x b y := by
  rw [linCombImpl]
  split
  · rw [linCombImpl]; simp
  · rfl

theorem linCombImplRest_frame (h : Heap) (z : RNVector) (a : FVal)
    (x : RNVector) (b : FVal) (y : RNVector) {i : Nat} (hi : ¬ i = z.buf) :
    linCombImplRest h z a x b y i = h i := by
  unfold linCombImplRest
  split_ifs <;> simp [writeBuf, hi]

theorem linCombImpl_frame (h : Heap) (z : RNVector) (a : FVal)
    (x : RNVector) (b : FVal) (y : RNVector) {i : Nat} (hi : ¬ i = z.buf) :
    linCombImpl h z a x b y i = h i := by
  rw [linCombImpl_eq]
  split_ifs <;> exact linCombImplRest_frame _ _ _ _ _ _ hi

/-! Correctness of each dispatch branch. -/

theorem linCombImplRest_noalias (h : Heap) (z x y : RNVector) (qa qb : ℚ)
    (hzx : ¬ z.hid = x.hid) (hzy : ¬ z.hid = y.hid)
    (bxz : ¬ x.buf = z.buf) (byz : ¬ y.buf = z.buf)
    (hfx : allFin (h x.buf)) (hfy : allFin (h y.buf))
    (hlxz : (h x.buf).length = (h z.buf).length)
    (hlyx : (h y.buf).length = (h x.buf).length) :
    linCombImplRest h z (FVal.fin qa) x (FVal.fin qb) y z.buf =
      refLinComb (FVal.fin qa) (h x.buf) (FVal.fin qb) (h y.buf) := by
  unfold linCombImplRest
  rw [if_neg (fun hc => hzx hc.1), if_neg hzx, if_neg hzy]
  by_cases hb0 : qb = 0
  · subst hb0
    by_cases ha0 : qa = 0
    · subst ha0
      simp [writeBuf]
      rw [zeroBuf_eq_replicate, refLinComb_zero_zero _ _ hfx hfy, hlyx,
        min_self, hlxz]
    · by_cases ha1 : qa = 1
      · subst ha1
        simp [writeBuf, bxz, byz]
        rw [refLinComb_rzero _ _ _ hfy hlyx, scal_fone]
      · simp [writeBuf, ha0, ha1, bxz, byz]
        rw [refLinComb_rzero _ _ _ hfy hlyx]
  · by_cases ha0 : qa = 0
    · subst ha0
      by_cases hb1 : qb = 1
      · subst hb1
        simp [writeBuf, bxz, byz]
        rw [refLinComb_lzero _ _ _ hfx hlyx.symm, scal_fone]
      · simp [writeBuf, hb0, hb1, bxz, byz]
        rw [refLinComb_lzero _ _ _ hfx hlyx.symm]
    · by_cases ha1 : qa = 1
      · subst ha1
        simp [writeBuf, hb0, bxz, byz]
        exact axpy_flip_ref (FVal.fin qb) (h x.buf) (h y.buf)
      · by_cases hb1 : qb = 1
        · subst hb1
          simp [writeBuf, hb0, ha0, ha1, bxz, byz]
          exact axpy_fone_ref (FVal.fin qa) (h x.buf) (h y.buf)
        · simp [writeBuf, hb0, ha0, ha1, hb1, bxz, byz]
          exact axpy_scal_eq_ref (FVal.fin qa) (FVal.fin qb) (h x.buf) (h y.buf)

theorem linCombImplRest_zx (h : Heap) (z y : RNVector) (a b : FVal)
    (hzy : ¬ z.hid = y.hid) (byz : ¬ y.buf = z.buf)
    (hfy : allFin (h y.buf))
    (hly : (h y.buf).length = (h z.buf).length) :
    linCombImplRest h z a z b y z.buf = refLinComb a (h z.buf) b (h y.buf) := by
  unfold linCombImplRest
  rw [if_neg (fun hc => hzy hc.2), if_pos rfl]
  by_cases ha1 : a = FVal.fin 1
  · subst ha1
    by_cases hb0 : b = FVal.fin 0
    · subst hb0
      simp [writeBuf]
      rw [refLinComb_rzero _ _ _ hfy hly, scal_fone]
    · simp [writeBuf, hb0, byz]
      exact axpy_flip_ref b (h z.buf) (h y.buf)
  · by_cases hb0 : b = FVal.fin 0
    · subst hb0
      simp [writeBuf, ha1]
      rw [refLinComb_rzero _ _ _ hfy hly]
    · simp [writeBuf, ha1, hb0, byz]
      exact axpy_scal_flip a b (h z.buf) (h y.buf)

theorem linCombImplRest_zy (h : Heap) (z x : RNVector) (a b : FVal)
    (hzx : ¬ z.hid = x.hid) (bxz : ¬ x.buf = z.buf)
    (hfx : allFin (h x.buf))
    (hlx : (h x.buf).length = (h z.buf).length) :
    linCombImplRest h z a x b z z.buf = refLinComb a (h x.buf) b (h z.buf) := by
  unfold linCombImplRest
  rw [if_neg (fun hc => hzx hc.1), if_neg hzx, if_pos rfl]
  by_cases hb1 : b = FVal.fin 1
  · subst hb1
    by_cases ha0 : a = FVal.fin 0
    · subst ha0
      simp [writeBuf]
      rw [refLinComb_lzero _ _ _ hfx hlx, scal_fone]
    · simp [writeBuf, ha0, bxz]
      exact axpy_fone_ref a (h x.buf) (h z.buf)
  · by_cases ha0 : a = FVal.fin 0
    · subst ha0
      simp [writeBuf, hb1]
      rw [refLinComb_lzero _ _ _ hfx hlx]
    · simp [writeBuf, hb1, ha0, bxz]
      exact axpy_scal_eq_ref a b (h x.buf) (h z.buf)

theorem linCombImpl_all_same (h : Heap) (v : RNVector) (a b : FVal) :
    linCombImpl h v a v b v v.buf = scalBuf (FVal.add a b) (h v.buf) := by
  rw [linCombImpl_eq]
  by_cases hb0 : b = FVal.fin 0
  · subst hb0
    rw [if_neg (by simp)]
    unfold linCombImplRest
    rw [if_pos ⟨rfl, rfl⟩, writeBuf_same, FVal.add_fzero]
  · rw [if_pos ⟨rfl, hb0⟩]
    unfold linCombImplRest
    rw [if_pos ⟨rfl, rfl⟩, writeBuf_same, FVal.add_fzero]

theorem linCombImpl_xy_same (h : Heap) (z w : RNVector) (qa qb : ℚ)
    (hzw : ¬ z.hid = w.hid) (hfw : allFin (h w.buf))
    (hlw : (h w.buf).length = (h z.buf).length) :
    linCombImpl h z (FVal.fin qa) w (FVal.fin qb) w z.buf =
      refLinComb (FVal.fin qa) (h w.buf) (FVal.fin qb) (h w.buf) := by
  have key : linCombImplRest h z (FVal.fin (qa + qb)) w (FVal.fin 0) w z.buf =
      refLinComb (FVal.fin qa) (h w.buf) (FVal.fin qb) (h w.buf) := by
    unfold linCombImplRest
    rw [if_neg (fun hc => hzw hc.1), if_neg hzw, if_neg hzw]
    by_cases hs0 : qa + qb = 0
    · simp [writeBuf, hs0]
      rw [zeroBuf_eq_replicate, ← scal_sum_ref qa qb (h w.buf) hfw, hs0,
        scal_fzero_allFin (h w.buf) hfw, hlw]
    · by_cases hs1 : qa + qb = 1
      · simp [writeBuf, hs0, hs1]
        rw [← scal_sum_ref qa qb (h w.buf) hfw, hs1, scal_fone]
      · simp [writeBuf, hs0, hs1]
        rw [← scal_sum_ref qa qb (h w.buf) hfw]
  rw [linCombImpl_eq]
  by_cases hb0 : qb = 0
  · subst hb0
    rw [if_neg (by simp)]
    simpa using key
  · rw [if_pos ⟨rfl, by simpa using hb0⟩]
    simpa [FVal.add] using key

/-! The claims. -/

/-- C1: for every call `linComb(z, a, x, b, y)` with `z`, `x`, `y` pairwise
non-aliased vectors of the same dimension and finite scalars `a`, `b`, after
the call `z`'s buffer equals the element-wise reference `a*x[i] + b*y[i]` at
every index, and the buffers of `x` and `y` are unchanged. -/
theorem linCombImpl_noalias_correct (h : Heap) (z x y : RNVector) (qa qb : ℚ)
    (hzx : ¬ z.hid = x.hid) (hzy : ¬ z.hid = y.hid) (hxy : ¬ x.hid = y.hid)
    (bxz : ¬ x.buf = z.buf) (byz : ¬ y.buf = z.buf) (_bxy : ¬ x.buf = y.buf)
    (hfx : allFin (h x.buf)) (hfy : allFin (h y.buf))
    (hlxz : (h x.buf).length = (h z.buf).length)
    (hlyx : (h y.buf).length = (h x.buf).length) :
    (linCombImpl h z (FVal.fin qa) x (FVal.fin qb) y) z.buf =
      refLinComb (FVal.fin qa) (h x.buf) (FVal.fin qb) (h y.buf)
    ∧ (linCombImpl h z (FVal.fin qa) x (FVal.fin qb) y) x.buf = h x.buf
    ∧ (linCombImpl h z (FVal.fin qa) x (FVal.fin qb) y) y.buf = h y.buf := by
  refine ⟨?_, linCombImpl_frame _ _ _ _ _ _ bxz,
    linCombImpl_frame _ _ _ _ _ _ byz⟩
  rw [linCombImpl_eq, if_neg (fun hc => hxy hc.1)]
  exact linCombImplRest_noalias h z x y qa qb hzx hzy bxz byz hfx hfy hlxz hlyx

/-- Witness for C1 at the spec's concrete scenario: `n = 3`, `x = [1,2,3]`,
`y = [4,5,6]`, `linComb(z, 2, x, 3, y)` gives `z = [14,19,24]`. -/
theorem linCombImpl_noalias_correct_witness :
    (¬ zW1.hid = xW1.hid) ∧ (¬ zW1.hid = yW1.hid) ∧ (¬ xW1.hid = yW1.hid) ∧
    (¬ xW1.buf = zW1.buf) ∧ (¬ yW1.buf = zW1.buf) ∧ (¬ xW1.buf = yW1.buf) ∧
    allFin (hW1 xW1.buf) ∧ allFin (hW1 yW1.buf) ∧
    (hW1 xW1.buf).length = (hW1 zW1.buf).length ∧
    (hW1 yW1.buf).length = (hW1 xW1.buf).length ∧
    (linCombImpl hW1 zW1 (FVal.fin 2) xW1 (FVal.fin 3) yW1) zW1.buf =
      [FVal.fin 14, FVal.fin 19, FVal.fin 24] := by
  refine ⟨by decide, by decide, by decide, by decide, by decide, by decide,
    by decide, by decide, by decide, by decide, ?_⟩
  rw [(linCombImpl_noalias_correct hW1 zW1 xW1 yW1 2 3 (by decide) (by decide)
    (by decide) (by decide) (by decide) (by decide) (by decide) (by decide)
    (by decide) (by decide)).1]
  norm_num [refLinComb, hW1, xW1, yW1, zW1, FVal.mul, FVal.add]

/-- C2 counterexample: the engine compares the Vector handles with `is`, not
the underlying buffers, so when `z` and `x` are distinct handles backed by
the identical buffer the aliasing is NOT detected and the value written to
`z`'s buffer differs from the element-wise reference on the pre-call
contents (`[36,45,54]` instead of `[14,19,24]`). -/
theorem linCombImpl_buffer_alias_counterexample :
    (¬ zC2.hid = xW1.hid) ∧ zC2.buf = xW1.buf ∧
    (linCombImpl hW1 zC2 (FVal.fin 2) xW1 (FVal.fin 3) yW1) zC2.buf ≠
      refLinComb (FVal.fin 2) (hW1 xW1.buf) (FVal.fin 3) (hW1 yW1.buf) := by
  refine ⟨by decide, by decide, ?_⟩
  rw [linCombImpl_eq]
  norm_num [linCombImplRest, writeBuf, axpyBuf, scalBuf, refLinComb, hW1,
    zC2, xW1, yW1, FVal.mul, FVal.add]

/-- C2 (amended): aliasing is detected by Vector-handle identity (`is` on
the arguments), not buffer identity: whenever the same Vector object is
passed for two (or three) of the three arguments, the corresponding aliasing
branch is taken and the result written to `z`'s buffer equals the
element-wise reference evaluated on the pre-call contents; distinct handles
backed by one buffer are not detected. -/
theorem linCombImpl_handle_alias_correct (h : Heap) (v w : RNVector)
    (qa qb : ℚ) (hvw : ¬ v.hid = w.hid) (bwv : ¬ w.buf = v.buf)
    (hfv : allFin (h v.buf)) (hfw : allFin (h w.buf))
    (hlw : (h w.buf).length = (h v.buf).length) :
    (linCombImpl h v (FVal.fin qa) v (FVal.fin qb) w) v.buf =
      refLinComb (FVal.fin qa) (h v.buf) (FVal.fin qb) (h w.buf)
    ∧ (linCombImpl h v (FVal.fin qa) w (FVal.fin qb) v) v.buf =
      refLinComb (FVal.fin qa) (h w.buf) (FVal.fin qb) (h v.buf)
    ∧ (linCombImpl h v (FVal.fin qa) w (FVal.fin qb) w) v.buf =
      refLinComb (FVal.fin qa) (h w.buf) (FVal.fin qb) (h w.buf)
    ∧ (linCombImpl h v (FVal.fin qa) v (FVal.fin qb) v) v.buf =
      refLinComb (FVal.fin qa) (h v.buf) (FVal.fin qb) (h v.buf) := by
  refine ⟨?_, ?_, ?_, ?_⟩
  · rw [linCombImpl_eq, if_neg (fun hc => hvw hc.1)]
    exact linCombImplRest_zx h v w _ _ hvw bwv hfw hlw
  · rw [linCombImpl_eq, if_neg (fun hc => hvw hc.1.symm)]
    exact linCombImplRest_zy h v w _ _ hvw bwv hfw hlw
  · exact linCombImpl_xy_same h v w qa qb hvw hfw hlw
  · rw [linCombImpl_all_same]
    rw [show FVal.add (FVal.fin qa) (FVal.fin qb) = FVal.fin (qa + qb)
      from rfl]
    exact scal_sum_ref qa qb (h v.buf) hfv

/-- Witness for the amended C2: the same handle passed for `z` and `x`
(`linComb(v, 2, v, 3, w)`) gives the reference `2*[1,2] + 3*[10,20] =
[32,64]`. -/
theorem linCombImpl_handle_alias_correct_witness :
    (¬ vW2.hid = wW2.hid) ∧ (¬ wW2.buf = vW2.buf) ∧
    allFin (hW2 vW2.buf) ∧ allFin (hW2 wW2.buf) ∧
    (hW2 wW2.buf).length = (hW2 vW2.buf).length ∧
    (linCombImpl hW2 vW2 (FVal.fin 2) vW2 (FVal.fin 3) wW2) vW2.buf =
      [FVal.fin 32, FVal.fin 64] := by
  refine ⟨by decide, by decide, by decide, by decide, by decide, ?_⟩
  rw [(linCombImpl_handle_alias_correct hW2 vW2 wW2 2 3 (by decide)
    (by decide) (by decide) (by decide) (by decide)).1]
  norm_num [refLinComb, hW2, vW2, wW2, FVal.mul, FVal.add]

/-- C3: a `linComb` call whose operands do not all share the owning space's
dimension fails with DimensionMismatch before any primitive runs, leaving
the heap (in particular `z`'s buffer) unmodified. -/
theorem linComb_dimension_mismatch (h : Heap) (z x y : RNVector) (a b : FVal)
    (hne : ¬ (z.n = x.n ∧ z.n = y.n)) :
    linComb h z a x b y = (h, some SpaceError.dimensionMismatch) := by
  simp [linComb, hne]

/-- Witness for C3: a result vector of dimension 2 against summands of
dimension 3. -/
theorem linComb_dimension_mismatch_witness :
    (¬ (zW3.n = xW1.n ∧ zW3.n = yW1.n)) ∧
    linComb hW1 zW3 (FVal.fin 2) xW1 (FVal.fin 3) yW1 =
      (hW1, some SpaceError.dimensionMismatch) :=
  ⟨by decide, linComb_dimension_mismatch hW1 zW3 xW1 yW1 _ _ (by decide)⟩

/-- C4: passing the same vector for both summands, `linComb(z, a, x, b, x)`
computes exactly what `linComb(z, a+b, x, 0, x)` computes, for all scalars
`a`, `b` (the resulting heaps are identical, hence so is `z`'s buffer). -/
theorem linCombImpl_xy_alias_collapse (h : Heap) (z x : RNVector)
    (a b : FVal) :
    linCombImpl h z a x b x = linCombImpl h z (FVal.add a b) x (FVal.fin 0) x := by
  rw [linCombImpl_eq, linCombImpl_eq]
  by_cases hb0 : b = FVal.fin 0
  · subst hb0
    rw [if_neg (by simp), if_neg (by simp), FVal.add_fzero]
  · rw [if_pos ⟨rfl, hb0⟩, if_neg (by simp)]

/-- C5: `linComb(z, a, z, b, y)` with `y` not aliasing `z` leaves `z`'s
buffer equal to the fresh-vector result `a*z + b*y` computed from the
pre-call contents, for all scalars `a`, `b`. -/
theorem linCombImpl_inplace_correct (h : Heap) (z y : RNVector) (a b : FVal)
    (hzy : ¬ z.hid = y.hid) (byz : ¬ y.buf = z.buf)
    (hfy : allFin (h y.buf))
    (hly : (h y.buf).length = (h z.buf).length) :
    (linCombImpl h z a z b y) z.buf = refLinComb a (h z.buf) b (h y.buf) := by
  rw [linCombImpl_eq, if_neg (fun hc => hzy hc.1)]
  exact linCombImplRest_zx h z y a b hzy byz hfy hly

/-- Witness for C5: `linComb(v, 3, v, 1, w)` on `v = [1,2]`, `w = [10,20]`
gives `3*[1,2] + 1*[10,20] = [13,26]`. -/
theorem linCombImpl_inplace_correct_witness :
    (¬ vW2.hid = wW2.hid) ∧ (¬ wW2.buf = vW2.buf) ∧ allFin (hW2 wW2.buf) ∧
    (hW2 wW2.buf).length = (hW2 vW2.buf).length ∧
    (linCombImpl hW2 vW2 (FVal.fin 3) vW2 (FVal.fin 1) wW2) vW2.buf =
      [FVal.fin 13, FVal.fin 26] := by
  refine ⟨by decide, by decide, by decide, by decide, ?_⟩
  rw [linCombImpl_inplace_correct hW2 vW2 wW2 (FVal.fin 3) (FVal.fin 1)
    (by decide) (by decide) (by decide) (by decide)]
  norm_num [refLinComb, hW2, vW2, wW2, FVal.mul, FVal.add]

/-- C6 counterexample: when `z`, `x` and `y` are all the same Vector and the
shared buffer holds `inf`, `linComb(z, 0, x, 0, y)` runs `scal(0, z)` and
IEEE `0 * inf = NaN`, so `z` is NOT left entirely zero. -/
theorem linComb_zero_zero_counterexample :
    (linCombImpl hInf vInf (FVal.fin 0) vInf (FVal.fin 0) vInf) vInf.buf ≠
      List.replicate (hInf vInf.buf).length (FVal.fin 0) := by
  rw [linCombImpl_eq]
  norm_num [linCombImplRest, writeBuf, scalBuf, hInf, vInf, FVal.add,
    FVal.mul]
  decide

/-- C6 (amended): when `z` is a Vector handle distinct from both `x` and `y`
(`x` may alias `y`), `linComb(z, 0, x, 0, y)` leaves `z`'s buffer entirely
zero regardless of the contents of `x` and `y`, including non-finite values
such as `inf` or `NaN`; when `z` is passed as the same handle as `x` or `y`
the buffer is instead scaled by `0`, which zeroes it only if its contents
are finite. -/
theorem linComb_zero_zero_distinct_z (h : Heap) (z x y : RNVector)
    (hzx : ¬ z.hid = x.hid) (hzy : ¬ z.hid = y.hid) :
    (linCombImpl h z (FVal.fin 0) x (FVal.fin 0) y) z.buf =
      List.replicate (h z.buf).length (FVal.fin 0) := by
  rw [linCombImpl_eq, if_neg (by simp)]
  unfold linCombImplRest
  rw [if_neg (fun hc => hzx hc.1), if_neg hzx, if_neg hzy]
  simp [writeBuf]
  exact zeroBuf_eq_replicate (h z.buf)

/-- Witness for the amended C6: `x` and `y` are distinct handles sharing one
buffer that holds `inf`, `z` is a third handle; `z` still becomes `[0]`. -/
theorem linComb_zero_zero_distinct_z_witness :
    (¬ zC6.hid = vInf.hid) ∧ (¬ zC6.hid = yC6.hid) ∧
    (linCombImpl hInf zC6 (FVal.fin 0) vInf (FVal.fin 0) yC6) zC6.buf =
      [FVal.fin 0] := by
  refine ⟨by decide, by decide, ?_⟩
  rw [linComb_zero_zero_distinct_z hInf zC6 vInf yC6 (by decide) (by decide)]
  rfl

/-- C7: `normImpl` computes the p-norm of the buffer; in particular
`norm([3,4], ord=2) = 5`, `norm([3,4], ord=1) = 7`, and the `ord = 0`
pseudonorm counts nonzero elements (`norm([3,0], ord=0) = 1`). -/
theorem normImpl_pnorm_concrete :
    normImpl [3, 4] (NormOrd.val 2) = 5 ∧ normImpl [3, 4] (NormOrd.val 1) = 7
    ∧ normImpl [3, 0] (NormOrd.val 0) = 1 := by
  refine ⟨?_, ?_, ?_⟩
  · simp only [normImpl]
    rw [if_neg (by norm_num : ¬ (2:ℚ) = 0)]
    norm_num
    rw [← Real.sqrt_eq_rpow, show (25:ℝ) = 5 ^ 2 by norm_num,
      Real.sqrt_sq (by norm_num : (0:ℝ) ≤ 5)]
  · simp only [normImpl]
    rw [if_neg (by norm_num : ¬ (1:ℚ) = 0)]
    norm_num
  · simp only [normImpl]
    norm_num

/-- C8: `multiply(x, y)` overwrites `y`'s buffer with the element-wise
product `x[i]*y[i]`, leaves `x`'s buffer unchanged when the buffers are
distinct, and passing the same vector twice squares it in place. -/
theorem multiplyImpl_correct (h : Heap) (x y : RNVector)
    (hxy : ¬ x.buf = y.buf) :
    (multiplyImpl h x y) y.buf = List.zipWith FVal.mul (h x.buf) (h y.buf)
    ∧ (multiplyImpl h x y) x.buf = h x.buf
    ∧ (multiplyImpl h y y) y.buf = List.zipWith FVal.mul (h y.buf) (h y.buf) := by
  refine ⟨?_, ?_, ?_⟩ <;> simp [multiplyImpl, writeBuf, hxy]

/-- Witness for C8 at the spec's concrete scenario:
`multiply([5,3,2], [1,2,3])` overwrites the second operand to `[5,6,6]`. -/
theorem multiplyImpl_correct_witness :
    (¬ xW4.buf = yW4.buf) ∧
    (multiplyImpl hW4 xW4 yW4) yW4.buf =
      [FVal.fin 5, FVal.fin 6, FVal.fin 6] := by
  refine ⟨by decide, ?_⟩
  rw [(multiplyImpl_correct hW4 xW4 yW4 (by decide)).1]
  norm_num [hW4, xW4, yW4, FVal.mul]

/-- C9: constructing `RN(n)` fails with InvalidArgument whenever `n` is not
a positive integer (an integer below 1, or not an Integral at all), and
succeeds with dimension `n` for every integer `n >= 1`. -/
theorem RN_init_spec (n : Int) :
    (n < 1 → RN_init (PyInput.int n) = Except.error SpaceError.invalidArgument)
    ∧ (1 ≤ n → RN_init (PyInput.int n) = Except.ok n.toNat ∧
        (n.toNat : Int) = n)
    ∧ RN_init PyInput.nonIntegral = Except.error SpaceError.invalidArgument := by
  refine ⟨fun hlt => ?_, fun hge => ⟨?_, ?_⟩, rfl⟩
  · simp [RN_init, hlt]
  · simp [RN_init, show ¬ n < 1 by omega]
  · exact Int.toNat_of_nonneg (by omega)

/-- Witness for C9: `RN(3)` succeeds with dimension 3, `RN(0)` and a
non-Integral argument fail. -/
theorem RN_init_spec_witness :
    RN_init (PyInput.int 3) = Except.ok 3
    ∧ RN_init (PyInput.int 0) = Except.error SpaceError.invalidArgument
    ∧ RN_init PyInput.nonIntegral = Except.error SpaceError.invalidArgument :=
  ⟨((RN_init_spec 3).2.1 (by norm_num)).1, (RN_init_spec 0).1 (by norm_num),
    (RN_init_spec 0).2.2⟩

/-- C10: `linCombImpl` terminates on every input with recursion depth at
most one extra call: two stack frames of fuel always suffice, and the
fuel-bounded run returns exactly the total function's result. -/
theorem linCombImpl_terminates (fuel : Nat) (h : Heap) (z : RNVector)
    (a : FVal) (x : RNVector) (b : FVal) (y : RNVector) :
    linCombImplFuel (fuel + 2) h z a x b y =
      some (linCombImpl h z a x b y) := by
  rw [linCombImpl_eq]
  by_cases hc : x.hid = y.hid ∧ ¬ b = FVal.fin 0
  · rw [if_pos hc]
    show linCombImplFuel (fuel + 1 + 1) h z a x b y = _
    simp [linCombImplFuel, hc]
  · rw [if_neg hc]
    show linCombImplFuel (fuel + 1 + 1) h z a x b y = _
    simp [linCombImplFuel, hc]
